import Mathlib

/-!
Verification of the sysbox-fs handler-dispatch and resource-reconciliation
core against its specification.  The Go sources are shallowly embedded:
pure helpers become Lean functions, the stateful handler operations become
explicit state-passing functions over a record of the mutable state they
touch (the host pseudo-file, the per-container resource-map entry, the
fuse-server registry).  Machine integers are modelled as `Int` with Go's
`strconv.Atoi` 64-bit range check made explicit.
-/

namespace SysboxFS

/-! ## Go string and integer primitives -/

/-- Character-level model of Go `unicode.IsSpace` restricted to the
code points `strings.TrimSpace` actually trims on the handler inputs:
`\t \n \v \f \r` space, NEL and NBSP. -/
def goIsSpace (c : Char) : Bool :=
  decide (c.toNat = 32 ∨ c.toNat = 9 ∨ c.toNat = 10 ∨ c.toNat = 11 ∨
    c.toNat = 12 ∨ c.toNat = 13 ∨ c.toNat = 133 ∨ c.toNat = 160)

/-- Model of `strings.TrimSpace`: drop leading and trailing space characters. -/
def trimSpace (s : String) : String :=
  ⟨((s.data.dropWhile goIsSpace).reverse.dropWhile goIsSpace).reverse⟩

/-- An ASCII decimal digit, as accepted by `strconv.Atoi`. -/
def isGoDigit (c : Char) : Bool :=
  decide (48 ≤ c.toNat ∧ c.toNat ≤ 57)

/-- Numeric value of a digit character. -/
def charVal (c : Char) : Nat := c.toNat - 48

/-- Value of a most-significant-first digit string, as accumulated by Go's
decimal parser (`val = val*10 + d`). -/
def digitsNat (l : List Char) : Nat :=
  Nat.ofDigits 10 ((l.map charVal).reverse)

/-- `math.MaxInt64`, the bound `strconv.Atoi` enforces on 64-bit platforms. -/
def goMaxInt : Nat := 9223372036854775807

/-- Parse a non-empty all-digit run. -/
def atoiDigits (l : List Char) : Option Nat :=
  if l ≠ [] ∧ l.all isGoDigit then some (digitsNat l) else none

/-- Model of Go `strconv.Atoi` at the character-list level: optional sign,
then a non-empty digit run, error (`none`) on anything else or on 64-bit
overflow. -/
def atoiChars (l : List Char) : Option Int :=
  match l with
  | [] => none
  | c :: cs =>
    if c = '+' then
      match atoiDigits cs with
      | none => none
      | some m => if m ≤ goMaxInt then some (m : Int) else none
    else if c = '-' then
      match atoiDigits cs with
      | none => none
      | some m => if m ≤ goMaxInt + 1 then some (-(m : Int)) else none
    else
      match atoiDigits (c :: cs) with
      | none => none
      | some m => if m ≤ goMaxInt then some (m : Int) else none

/-- Model of Go `strconv.Atoi`. -/
def atoi (s : String) : Option Int := atoiChars s.data

/-- Digit character for a value below ten. -/
def digitChar (d : Nat) : Char := Char.ofNat (48 + d)

/-- Little-endian decimal digits of `n`, with explicit fuel so that the
definition is structurally recursive (`fuel ≥ n` suffices). -/
def natDigitsRev (fuel n : Nat) : List Nat :=
  match fuel with
  | 0 => []
  | f + 1 => if n = 0 then [] else n % 10 :: natDigitsRev f (n / 10)

/-- Decimal rendering of a natural number, as `strconv.Itoa` produces. -/
def itoaNat (n : Nat) : String :=
  if n = 0 then "0" else ⟨((natDigitsRev n n).map digitChar).reverse⟩

/-- Model of Go `strconv.Itoa` on `int`. -/
def itoa (v : Int) : String :=
  if v < 0 then "-" ++ itoaNat v.natAbs else itoaNat v.toNat

/-- UTF-8 byte width of a character (Go `len` counts bytes). -/
def charBytes (c : Char) : Nat :=
  if c.toNat < 128 then 1
  else if c.toNat < 2048 then 2
  else if c.toNat < 65536 then 3
  else 4

/-- Model of Go `len` on a string: its UTF-8 byte length. -/
def goLen (s : String) : Nat := (s.data.map charBytes).sum

/-- First line of a string: everything before the first newline. -/
def firstLine (s : String) : String :=
  ⟨s.data.takeWhile (fun c => c != '\n')⟩

/-! ## Error kinds

The handlers surface Go `error` values of a few distinct shapes; the kernel
translation happens outside this core.  `ioErrorCode` is `fuse.IOerror`
carrying an errno, `eof` is the `io.EOF` sentinel, `ioFail` stands for a
raw I/O error object from a node operation, and the remaining constructors
are the service-level `errors.New` values of `fuse/service.go`. -/

inductive Errno where
  | eacces
  | eio
deriving DecidableEq, Repr

inductive Err where
  | parseFailure
  | containerNotFound
  | eof
  | ioFail
  | ioErrorCode (code : Errno)
  | alreadyPresent
  | invalidMountpoint
  | initFailure
deriving DecidableEq, Repr

/-! ## I/O node

Modelled from the spec (§4.1): the I/O-node implementation is not under
`src/`; the spec describes it as a thin wrapper over one host pseudo-file
with `read_line` ("reads up to first newline/EOF and returns the trimmed
string", "returns EOF on empty reads"), `write`, and `seek_reset`.  The
`content` field is the file's current text; a `write` of a kernel-tunable
value replaces it.  The three `*Fails` flags are oracles for
environment-caused I/O errors, and `writeCount` counts successful host
writes so that "the host file is not written" is expressible. -/

structure IONode where
  content : String
  path : String
  readFails : Bool
  seekFails : Bool
  writeFails : Bool
  writeCount : Nat
deriving DecidableEq, Repr

/-- The trimmed first line of the node's content: what a successful
`ReadLine` returns. -/
def readValue (n : IONode) : String := trimSpace (firstLine n.content)

/-- The host value of the node: its trimmed first line parsed as an integer. -/
def hostVal (n : IONode) : Option Int := atoi (readValue n)

/-- Modelled from the spec (§4.1): `read_line` returns the trimmed first
line, `io.EOF` on an empty file, and a raw I/O error when the environment
makes the read fail. -/
def IONode.readLine (n : IONode) : String × Option Err :=
  if n.readFails then ("", some .ioFail)
  else if n.content = "" then ("", some .eof)
  else (readValue n, none)

/-- Modelled from the spec (§4.1): a successful `write` of an integer value
to a kernel-tunable pseudo-file replaces its content. -/
def IONode.writeVal (n : IONode) (v : Int) : IONode :=
  ⟨itoa v, n.path, n.readFails, n.seekFails, n.writeFails, n.writeCount + 1⟩

/-! ## NfConntrackMaxHandler (src/fuse/service.go, second part)

Per-call mutable state: the host I/O node and the container's resource-map
entry for this handler's `(path, name)` pair.  `cntr = none` models a
caller PID outside any registered container (`ContainerLookupByPid`
returning nil); `cntr = some cache` is a registered container whose
resource-map entry is `cache`. -/

structure WState where
  node : IONode
  cntr : Option (Option String)
deriving DecidableEq, Repr

/-- `NfConntrackMaxHandler.PushFile`: read the current host value, keep the
larger of it and `newMaxInt`, writing to the host only when the new value
is strictly larger. -/
def pushFile (n : IONode) (newMaxInt : Int) : Except Err IONode :=
  let r := n.readLine
  if r.2 ≠ none ∧ r.2 ≠ some .eof then .error (r.2.getD .ioFail)
  else
    match atoi r.1 with
    | none => .error .parseFailure
    | some curHostMaxInt =>
      if newMaxInt ≤ curHostMaxInt then .ok n
      else if n.seekFails then .error .ioFail
      else if n.writeFails then .error .ioFail
      else .ok (n.writeVal newMaxInt)

/-- `NfConntrackMaxHandler.FetchFile`: read the host value and validate that
it parses as an integer; mirrors Go's `(value, error)` return pair. -/
def fetchFile (n : IONode) : String × Option Err :=
  let r := n.readLine
  if r.2 ≠ none ∧ r.2 ≠ some .eof then ("", r.2)
  else
    match atoi r.1 with
    | none => ("", some .parseFailure)
    | some _ => (r.1, none)

/-- `NfConntrackMaxHandler.Write`: parse the payload, look up the caller's
container, and reconcile with the cached value and the host (max-wins). -/
def nfWrite (s : WState) (buf : String) : Except Err Nat × WState :=
  match atoi (trimSpace buf) with
  | none => (.error .parseFailure, s)
  | some newMaxInt =>
    match s.cntr with
    | none => (.error .containerNotFound, s)
    | some cache =>
      match cache with
      | none =>
        match pushFile s.node newMaxInt with
        | .error e => (.error e, s)
        | .ok n2 => (.ok (goLen buf), ⟨n2, some (some (trimSpace buf))⟩)
      | some curMax =>
        match atoi curMax with
        | none => (.error .parseFailure, s)
        | some curMaxInt =>
          if newMaxInt ≤ curMaxInt then
            (.ok (goLen buf), ⟨s.node, some (some (trimSpace buf))⟩)
          else
            match pushFile s.node newMaxInt with
            | .error _ => (.error .eof, s)
            | .ok n2 => (.ok (goLen buf), ⟨n2, some (some (trimSpace buf))⟩)

/-- `NfConntrackMaxHandler.Read`: EOF past offset 0, otherwise return the
cached value (filling the cache from the host on a miss) with a trailing
newline.  The result string is the payload `copyResultBuffer` copies into
the request buffer (modelled from the spec: §4.4 read contract, "appends a
trailing newline before copying into req.data"). -/
def nfRead (s : WState) (off : Int) : Except Err String × WState :=
  if off > 0 then (.error .eof, s)
  else
    match s.cntr with
    | none => (.error .containerNotFound, s)
    | some cache =>
      match cache with
      | some data => (.ok (data ++ "\n"), s)
      | none =>
        let r := fetchFile s.node
        if r.2 ≠ none ∧ r.2 ≠ some .eof then (.error (r.2.getD .ioFail), s)
        else (.ok (r.1 ++ "\n"), ⟨s.node, some (some r.1)⟩)

/-- Decidable equality for `Except`, needed to evaluate concrete handler
results. -/
instance instDecEqExcept {ε α : Type} [DecidableEq ε] [DecidableEq α] :
    DecidableEq (Except ε α) :=
  fun x y =>
    match x, y with
    | .ok a, .ok b =>
      if h : a = b then isTrue (by rw [h])
      else isFalse (by intro hc; cases hc; exact h rfl)
    | .error a, .error b =>
      if h : a = b then isTrue (by rw [h])
      else isFalse (by intro hc; cases hc; exact h rfl)
    | .ok _, .error _ => isFalse (by intro hc; cases hc)
    | .error _, .ok _ => isFalse (by intro hc; cases hc)

/-- `NfConntrackMaxHandler.Open` state: the node's open flags and an oracle
for whether the host open fails. -/
structure OpenNode where
  openFlags : Int
  openFails : Bool
deriving DecidableEq, Repr

def O_RDONLY : Int := 0
def O_WRONLY : Int := 1
def O_RDWR : Int := 2

/-- `NfConntrackMaxHandler.Open`: allow only read-only or write-only flags
(EACCES otherwise), silently promote write-only to read-write, then open
the host file (EIO on failure). -/
def nfOpen (n : OpenNode) : Option Err × OpenNode :=
  if n.openFlags ≠ O_RDONLY ∧ n.openFlags ≠ O_WRONLY then
    (some (.ioErrorCode .eacces), n)
  else
    let n2 := if n.openFlags = O_WRONLY then ⟨O_RDWR, n.openFails⟩ else n
    if n2.openFails then (some (.ioErrorCode .eio), n2)
    else (none, n2)

/-! ## Host-passthrough handlers

`ProcMeminfoHandler` (src/handler/implementations/procMeminfo.go) and
`ProcCpuinfoHandler` (src/unnamed/part_000). -/

/-- Character-count prefix of a string (the request buffer truncation
`req.Data = req.Data[:len]`). -/
def strTake (s : String) (k : Nat) : String := ⟨s.data.take k⟩

/-- Modelled from the spec (§2 out-of-scope host I/O service): `ReadNode`
performs a raw read of the host pseudo-file into the request buffer of
capacity `cap`, returning the byte count and the data read. -/
def readNodeSpec (n : IONode) (cap : Nat) : (Nat × Option Err) × String :=
  if n.readFails then ((0, some .ioFail), "")
  else ((min cap n.content.data.length, none), strTake n.content cap)

/-- `ProcMeminfoHandler.Read`: stream the host file content straight into
the request buffer.  The returned string is the truncated buffer
`req.Data[:len]`. -/
def procMeminfoRead (n : IONode) (cap : Nat) : Except Err String :=
  let r := readNodeSpec n cap
  if r.1.2 ≠ none ∧ r.1.2 ≠ some .eof then .error ((r.1.2).getD .ioFail)
  else .ok r.2

/-- `ProcMeminfoHandler.Write`: `return 0, nil` — no state is touched. -/
def procMeminfoWrite (n : IONode) (buf : String) : (Nat × Option Err) × IONode :=
  ((0, none), n)

/-- `ProcCpuinfoHandler.Write`: `return 0, nil` — no state is touched. -/
def procCpuinfoWrite (n : IONode) (buf : String) : (Nat × Option Err) × IONode :=
  ((0, none), n)

/-! ## ProcSysNetIpv4Neigh handler
(src/handler/implementations/procSysNetIpv4Neigh.go) -/

/-- Handler-request fields the neigh `Read` path consults: the request
offset, whether `req.Container` is non-nil, and the service's test-mode
`IgnoreErrors` flag. -/
structure NeighReq where
  offset : Int
  cntrPresent : Bool
  ignoreErrors : Bool
deriving DecidableEq, Repr

/-- Modelled from the spec (§4.4 read contract): the shared `readFileInt`
helper is not under `src/`; per the spec it returns the cached container
value or, on a miss, fetches from the host, validates, caches, and
returns, appending a trailing newline. -/
def readFileIntSpec (n : IONode) (cache : Option String) :
    Except Err String × Option String :=
  match cache with
  | some v => (.ok (v ++ "\n"), cache)
  | none =>
    let r := fetchFile n
    if r.2 ≠ none ∧ r.2 ≠ some .eof then (.error (r.2.getD .ioFail), cache)
    else (.ok (r.1 ++ "\n"), some r.1)

/-- `ProcSysNetIpv4Neigh.Read`: EOF past offset 0, container check, the
test-mode path redirect, then the shared single-integer read. -/
def neighRead (n : IONode) (cache : Option String) (req : NeighReq) :
    Except Err String × Option String :=
  if req.offset > 0 then (.error .eof, cache)
  else if req.cntrPresent = false then (.error .containerNotFound, cache)
  else
    let n2 :=
      if req.ignoreErrors then
        ⟨n.content, "/proc/sys/net/ipv4/neigh/lo/retrans_time",
          n.readFails, n.seekFails, n.writeFails, n.writeCount⟩
      else n
    readFileIntSpec n2 cache

/-- Split a character list at every slash (model of the component split
underlying `filepath.Dir` on clean relative paths). -/
def splitSlash (l : List Char) : List (List Char) :=
  match l with
  | [] => [[]]
  | c :: cs =>
    match splitSlash cs with
    | [] => [[]]
    | h :: t => if c = '/' then [] :: h :: t else (c :: h) :: t

/-- Join components with slashes. -/
def joinSlash (l : List (List Char)) : List Char :=
  match l with
  | [] => []
  | [x] => x
  | x :: xs => x ++ '/' :: joinSlash xs

/-- Model of Go `filepath.Dir` on the clean relative paths the neigh
handler deals in: all but the last slash-separated component, `"."` when
there is no directory part. -/
def goFilepathDir (s : String) : String :=
  match (splitSlash s.data).dropLast with
  | [] => "."
  | ps => ⟨joinSlash ps⟩

/-- The keys of the neigh handler's `EmuNodesMap`. -/
def neighEmuKeys : List String :=
  ["default", "default/gc_thresh1", "default/gc_thresh2", "default/gc_thresh3"]

/-- Which arm of the `ReadDirAll` loop body fires for a key: the first
emits a directory entry, the second (the alleged dead branch) a plain file
entry. -/
inductive NeighBranch where
  | emitDir
  | emitFile
deriving DecidableEq, Repr

/-- The branch structure of the loop body of
`ProcSysNetIpv4Neigh.ReadDirAll`: first `relpath == filepath.Dir(k)`, then
`relpath != "." && relpath == filepath.Dir(k)`. -/
def neighDirBranch (relpath k : String) : Option NeighBranch :=
  if relpath = goFilepathDir k then some .emitDir
  else if relpath ≠ "." ∧ relpath = goFilepathDir k then some .emitFile
  else none

/-- The emulated-node keys for which `ReadDirAll` emits an entry at a given
relative path (before merging the `/proc/sys/` handler's host entries). -/
def neighEmuEntries (relpath : String) : List String :=
  neighEmuKeys.filter (fun k => (neighDirBranch relpath k).isSome)

/-! ## FuseServerService (src/fuse/service.go, first part)

The service owns the fuse-server map and the per-container mountpoint
directories under the base mountpoint.  `FuseSrv` carries environment
oracles for whether its `Destroy` and the `os.Remove` of its mountpoint
succeed; `CreateEnv` carries the same for `os.MkdirAll` and `srv.Init`.
Mountpoint paths are identified with the container id (the base directory
is fixed). -/

structure FuseSrv where
  destroyOk : Bool
  removeOk : Bool
deriving DecidableEq, Repr

structure FssState where
  servers : List (String × FuseSrv)
  dirs : List String
deriving DecidableEq, Repr

/-- Lookup in the server map. -/
def lookupSrv (l : List (String × FuseSrv)) (cid : String) : Option FuseSrv :=
  match l with
  | [] => none
  | p :: t => if p.1 = cid then some p.2 else lookupSrv t cid

structure CreateEnv where
  mkdirOk : Bool
  initOk : Bool
deriving DecidableEq, Repr

/-- `FuseServerService.CreateFuseServer`: duplicate check, mountpoint
creation, server `Init`, concurrent `Run` launch (not modelled), then map
insertion on success only. -/
def createFuseServer (st : FssState) (env : CreateEnv) (cid : String)
    (srv : FuseSrv) : Option Err × FssState :=
  if (lookupSrv st.servers cid).isSome then (some .alreadyPresent, st)
  else if env.mkdirOk = false then (some .invalidMountpoint, st)
  else
    let dirs2 := if cid ∈ st.dirs then st.dirs else cid :: st.dirs
    if env.initOk = false then (some .initFailure, ⟨st.servers, dirs2⟩)
    else (none, ⟨(cid, srv) :: st.servers, dirs2⟩)

/-- `FuseServerService.DestroyFuseServer`: absent ids succeed silently; a
failing `srv.Destroy()` or a failing `os.Remove` of the mountpoint is
logged and `nil` is returned with the state untouched; only on full
success are the mountpoint and the map entry removed. -/
def destroyFuseServer (st : FssState) (cid : String) : Option Err × FssState :=
  match lookupSrv st.servers cid with
  | none => (none, st)
  | some srv =>
    if srv.destroyOk = false then (none, st)
    else if cid ∈ st.dirs ∧ srv.removeOk then
      (none, ⟨st.servers.filter (fun p => p.1 != cid), st.dirs.erase cid⟩)
    else (none, st)

/-- `FuseServerService.DestroyFuseService`: destroy every server in the
map. -/
def destroyFuseService (st : FssState) : FssState :=
  (st.servers.map (fun p => p.1)).foldl (fun s k => (destroyFuseServer s k).2) st

/-! ## Support lemmas: decimal round trip -/

theorem natDigitsRev_eq_digits (f n : Nat) (h : n ≤ f) :
    natDigitsRev f n = Nat.digits 10 n := by
  induction f generalizing n with
  | zero =>
    interval_cases n
    simp [natDigitsRev]
  | succ f ih =>
    by_cases hn : n = 0
    · subst hn; simp [natDigitsRev]
    · rw [natDigitsRev]
      simp only [hn, if_false]
      rw [Nat.digits_def' (show (1:Nat) < 10 by norm_num) (show 0 < n by omega)]
      have hlt : n / 10 < n := Nat.div_lt_self (by omega) (by norm_num)
      rw [ih (n / 10) (by omega)]

theorem digitChar_isGoDigit (d : Nat) (h : d < 10) :
    isGoDigit (digitChar d) = true := by
  interval_cases d <;> decide

theorem digitChar_charVal (d : Nat) (h : d < 10) : charVal (digitChar d) = d := by
  interval_cases d <;> decide

theorem digitChar_ne_sign (d : Nat) (h : d < 10) :
    digitChar d ≠ '+' ∧ digitChar d ≠ '-' := by
  interval_cases d <;> decide

theorem isGoDigit_ne_sign (c : Char) (h : isGoDigit c = true) :
    c ≠ '+' ∧ c ≠ '-' := by
  constructor <;> rintro rfl <;> simp [isGoDigit] at h

theorem itoaNat_all_digits (n : Nat) :
    ∀ c ∈ (itoaNat n).data, isGoDigit c = true := by
  intro c hc
  by_cases hn : n = 0
  · subst hn
    simp only [itoaNat, if_pos rfl] at hc
    have : c = '0' := by simpa using hc
    subst this; decide
  · simp only [itoaNat, if_neg hn] at hc
    have hc2 : c ∈ ((natDigitsRev n n).map digitChar).reverse := hc
    rw [List.mem_reverse, List.mem_map] at hc2
    obtain ⟨d, hd, rfl⟩ := hc2
    rw [natDigitsRev_eq_digits n n le_rfl] at hd
    exact digitChar_isGoDigit d (Nat.digits_lt_base (by norm_num) hd)

theorem itoaNat_ne_nil (n : Nat) : (itoaNat n).data ≠ [] := by
  by_cases hn : n = 0
  · subst hn; simp [itoaNat]
  · simp only [itoaNat, if_neg hn]
    intro h
    have h2 : ((natDigitsRev n n).map digitChar).reverse = [] := h
    rw [List.reverse_eq_nil_iff, List.map_eq_nil_iff,
      natDigitsRev_eq_digits n n le_rfl] at h2
    exact (Nat.digits_ne_nil_iff_ne_zero.2 hn) h2

theorem digitsNat_itoaNat (n : Nat) : digitsNat (itoaNat n).data = n := by
  by_cases hn : n = 0
  · subst hn; decide
  · simp only [itoaNat, if_neg hn]
    show digitsNat ((natDigitsRev n n).map digitChar).reverse = n
    rw [digitsNat, List.map_reverse, List.reverse_reverse, List.map_map]
    have hmap : ∀ l : List Nat, (∀ d ∈ l, d < 10) →
        l.map (charVal ∘ digitChar) = l := by
      intro l
      induction l with
      | nil => intro _; rfl
      | cons a t iht =>
        intro hl
        rw [List.map_cons, iht (fun d hd => hl d (List.mem_cons_of_mem a hd))]
        have ha : charVal (digitChar a) = a :=
          digitChar_charVal a (hl a (List.mem_cons_self a t))
        simp [ha]
    rw [natDigitsRev_eq_digits n n le_rfl]
    rw [hmap (Nat.digits 10 n)
      (fun d hd => Nat.digits_lt_base (by norm_num) hd)]
    exact Nat.ofDigits_digits 10 n

theorem atoiDigits_itoaNat (n : Nat) : atoiDigits (itoaNat n).data = some n := by
  rw [atoiDigits, if_pos, digitsNat_itoaNat]
  exact ⟨itoaNat_ne_nil n, List.all_eq_true.2 (itoaNat_all_digits n)⟩

theorem atoi_itoa (v : Int) (h1 : -((goMaxInt : Int) + 1) ≤ v)
    (h2 : v ≤ (goMaxInt : Int)) : atoi (itoa v) = some v := by
  by_cases hv : v < 0
  · have hdata : (itoa v).data = '-' :: (itoaNat v.natAbs).data := by
      simp only [itoa, if_pos hv]
      rfl
    show atoiChars (itoa v).data = some v
    rw [hdata]
    have hle : v.natAbs ≤ goMaxInt + 1 := by omega
    have habs : ((v.natAbs : Int)) = -v :=
      Int.ofNat_natAbs_of_nonpos (le_of_lt hv)
    simp only [atoiChars, atoiDigits_itoaNat, if_pos hle,
      if_neg (show ('-' : Char) ≠ '+' by decide), if_pos rfl, if_true,
      habs, neg_neg]
  · push_neg at hv
    have hdata : itoa v = itoaNat v.toNat := by simp [itoa, not_lt.2 hv]
    show atoiChars (itoa v).data = some v
    rw [hdata]
    obtain ⟨c, cs, hcs⟩ : ∃ c cs, (itoaNat v.toNat).data = c :: cs := by
      cases h : (itoaNat v.toNat).data with
      | nil => exact absurd h (itoaNat_ne_nil _)
      | cons c cs => exact ⟨c, cs, rfl⟩
    have hcdig : isGoDigit c = true :=
      itoaNat_all_digits v.toNat c (by rw [hcs]; exact List.mem_cons_self _ _)
    obtain ⟨hne1, hne2⟩ := isGoDigit_ne_sign c hcdig
    have h0 : atoiDigits (c :: cs) = some v.toNat := by
      rw [← hcs]; exact atoiDigits_itoaNat _
    have hle : v.toNat ≤ goMaxInt := by omega
    have htn : ((v.toNat : Int)) = v := Int.toNat_of_nonneg hv
    rw [hcs]
    simp only [atoiChars, if_neg hne1, if_neg hne2, h0, if_pos hle, htn]

theorem atoi_range (s : String) (v : Int) (h : atoi s = some v) :
    -((goMaxInt : Int) + 1) ≤ v ∧ v ≤ (goMaxInt : Int) := by
  replace h : atoiChars s.data = some v := h
  rcases hs : s.data with _ | ⟨c, cs⟩ <;> rw [hs] at h
  · exact absurd h (by simp [atoiChars])
  · simp only [atoiChars] at h
    split_ifs at h with hc1 hc2
    · rcases hm : atoiDigits cs with _ | m <;> rw [hm] at h
      · exact absurd h (by simp)
      · replace h :
            (if m ≤ goMaxInt then some ((m : Nat) : Int) else none) = some v := h
        split_ifs at h with h3
        cases h
        constructor <;> omega
    · rcases hm : atoiDigits cs with _ | m <;> rw [hm] at h
      · exact absurd h (by simp)
      · replace h :
            (if m ≤ goMaxInt + 1 then some (-((m : Nat) : Int)) else none)
              = some v := h
        split_ifs at h with h3
        cases h
        constructor <;> omega
    · rcases hm : atoiDigits (c :: cs) with _ | m <;> rw [hm] at h
      · exact absurd h (by simp)
      · replace h :
            (if m ≤ goMaxInt then some ((m : Nat) : Int) else none) = some v := h
        split_ifs at h with h3
        cases h
        constructor <;> omega

/-! ## Support lemmas: the rendered value survives `ReadLine` intact -/

theorem takeWhile_of_all {p : Char → Bool} :
    ∀ l : List Char, (∀ c ∈ l, p c = true) → l.takeWhile p = l := by
  intro l h
  induction l with
  | nil => rfl
  | cons a t ih =>
    rw [List.takeWhile_cons, h a (List.mem_cons_self a t),
      ih (fun c hc => h c (List.mem_cons_of_mem a hc))]
    simp

theorem dropWhile_of_all {p : Char → Bool} :
    ∀ l : List Char, (∀ c ∈ l, p c = false) → l.dropWhile p = l := by
  intro l h
  cases l with
  | nil => rfl
  | cons a t => rw [List.dropWhile_cons, h a (List.mem_cons_self a t)]; simp

theorem itoa_chars (v : Int) :
    ∀ c ∈ (itoa v).data, isGoDigit c = true ∨ c = '-' := by
  intro c hc
  by_cases hv : v < 0
  · have hdata : (itoa v).data = '-' :: (itoaNat v.natAbs).data := by
      simp only [itoa, if_pos hv]; rfl
    rw [hdata] at hc
    rcases List.mem_cons.1 hc with h | h
    · exact Or.inr h
    · exact Or.inl (itoaNat_all_digits _ c h)
  · have hdata : (itoa v).data = (itoaNat v.toNat).data := by
      simp [itoa, hv]
    rw [hdata] at hc
    exact Or.inl (itoaNat_all_digits _ c hc)

theorem itoa_char_not_space (v : Int) :
    ∀ c ∈ (itoa v).data, goIsSpace c = false := by
  intro c hc
  rcases itoa_chars v c hc with h | h
  · simp only [isGoDigit, decide_eq_true_eq] at h
    simp only [goIsSpace, decide_eq_false_iff_not]
    omega
  · subst h; decide

theorem itoa_char_not_newline (v : Int) :
    ∀ c ∈ (itoa v).data, (c != '\n') = true := by
  intro c hc
  rcases itoa_chars v c hc with h | h
  · simp only [isGoDigit, decide_eq_true_eq] at h
    simp only [bne_iff_ne, ne_eq]
    intro hceq
    subst hceq
    simp at h
  · subst h; decide

theorem firstLine_itoa (v : Int) : firstLine (itoa v) = itoa v := by
  show (⟨(itoa v).data.takeWhile _⟩ : String) = itoa v
  rw [takeWhile_of_all _ (itoa_char_not_newline v)]

theorem trimSpace_itoa (v : Int) : trimSpace (itoa v) = itoa v := by
  show (⟨((itoa v).data.dropWhile goIsSpace).reverse.dropWhile
    goIsSpace |>.reverse⟩ : String) = itoa v
  rw [dropWhile_of_all _ (itoa_char_not_space v)]
  rw [dropWhile_of_all _
    (fun c hc => itoa_char_not_space v c (List.mem_reverse.1 hc))]
  rw [List.reverse_reverse]

theorem readValue_writeVal (n : IONode) (v : Int) :
    readValue (n.writeVal v) = itoa v := by
  show trimSpace (firstLine (itoa v)) = itoa v
  rw [firstLine_itoa, trimSpace_itoa]

theorem hostVal_writeVal (n : IONode) (v : Int)
    (h1 : -((goMaxInt : Int) + 1) ≤ v) (h2 : v ≤ (goMaxInt : Int)) :
    hostVal (n.writeVal v) = some v := by
  rw [hostVal, readValue_writeVal]
  exact atoi_itoa v h1 h2

/-! ## Support lemmas: PushFile -/

theorem pushFile_ok (n n2 : IONode) (v H : Int)
    (hH : hostVal n = some H)
    (h1 : -((goMaxInt : Int) + 1) ≤ v) (h2 : v ≤ (goMaxInt : Int))
    (hp : pushFile n v = .ok n2) :
    hostVal n2 = some (max v H) ∧ (v ≤ H → n2 = n) := by
  rw [pushFile] at hp
  by_cases hr : n.readFails
  · simp [IONode.readLine, hr] at hp
  · by_cases hc : n.content = ""
    · exfalso
      have : hostVal n = none := by
        rw [hostVal, readValue, hc]
        decide
      rw [hH] at this
      exact Option.noConfusion this
    · have hline : n.readLine = (readValue n, none) := by
        simp [IONode.readLine, hr, hc]
      rw [hline] at hp
      simp only [ne_eq, not_true_eq_false, and_false, if_false] at hp
      have hvl : atoi (readValue n) = some H := hH
      rw [hvl] at hp
      simp only [] at hp
      by_cases hle : v ≤ H
      · rw [if_pos hle] at hp
        cases hp
        exact ⟨by rw [hH, max_eq_right hle], fun _ => rfl⟩
      · rw [if_neg hle] at hp
        by_cases hs : n.seekFails
        · rw [if_pos hs] at hp; exact absurd hp (by simp)
        · rw [if_neg hs] at hp
          by_cases hw : n.writeFails
          · rw [if_pos hw] at hp; exact absurd hp (by simp)
          · rw [if_neg hw] at hp
            cases hp
            refine ⟨?_, fun hvh => absurd hvh hle⟩
            rw [hostVal_writeVal n v h1 h2, max_eq_left (by omega)]

/-! ## Support lemmas: Write -/

theorem nfWrite_ok_state (s s' : WState) (buf : String) (k : Nat)
    (h : nfWrite s buf = (.ok k, s')) :
    s'.cntr = some (some (trimSpace buf)) ∧ k = goLen buf := by
  rw [nfWrite] at h
  rcases ha : atoi (trimSpace buf) with _ | v <;> simp only [ha] at h
  · exact absurd h (by simp)
  · rcases hc : s.cntr with _ | cache <;> simp only [hc] at h
    · exact absurd h (by simp)
    · rcases cache with _ | curMax
      · rcases hp : pushFile s.node v with e | n2 <;> simp only [hp] at h
        · exact absurd h (by simp)
        · rw [Prod.mk.injEq] at h
          obtain ⟨h1, h2⟩ := h
          subst h2
          injection h1 with h1
          exact ⟨rfl, h1.symm⟩
      · rcases hm : atoi curMax with _ | cur <;> simp only [hm] at h
        · exact absurd h (by simp)
        · by_cases hle : v ≤ cur
          · rw [if_pos hle, Prod.mk.injEq] at h
            obtain ⟨h1, h2⟩ := h
            subst h2
            injection h1 with h1
            exact ⟨rfl, h1.symm⟩
          · rw [if_neg hle] at h
            rcases hp : pushFile s.node v with e | n2 <;> simp only [hp] at h
            · exact absurd h (by simp)
            · rw [Prod.mk.injEq] at h
              obtain ⟨h1, h2⟩ := h
              subst h2
              injection h1 with h1
              exact ⟨rfl, h1.symm⟩

theorem nfWrite_error_state (s s' : WState) (buf : String) (e : Err)
    (h : nfWrite s buf = (.error e, s')) : s' = s := by
  rw [nfWrite] at h
  rcases ha : atoi (trimSpace buf) with _ | v <;> simp only [ha] at h
  · rw [Prod.mk.injEq] at h
    exact h.2.symm
  · rcases hc : s.cntr with _ | cache <;> simp only [hc] at h
    · rw [Prod.mk.injEq] at h
      exact h.2.symm
    · rcases cache with _ | curMax
      · rcases hp : pushFile s.node v with e2 | n2 <;> simp only [hp] at h
        · rw [Prod.mk.injEq] at h
          exact h.2.symm
        · exact absurd h (by simp)
      · rcases hm : atoi curMax with _ | cur <;> simp only [hm] at h
        · rw [Prod.mk.injEq] at h
          exact h.2.symm
        · by_cases hle : v ≤ cur
          · rw [if_pos hle] at h
            exact absurd h (by simp)
          · rw [if_neg hle] at h
            rcases hp : pushFile s.node v with e2 | n2 <;> simp only [hp] at h
            · rw [Prod.mk.injEq] at h
              exact h.2.symm
            · exact absurd h (by simp)

/-! ## Claims -/

/-- C1: for every write of a value v to the monotonic-max resource
nf_conntrack_max by a registered container — in a state satisfying the
invariant the handler itself maintains, namely that the cached value (when
present) parses and does not exceed the current host value H — a
successful write leaves the host value at max(v, H), caches the trimmed
written payload (which parses to v), and does not touch the host file when
v is at most the relevant current value. -/
theorem c1_nf_write_monotonic_max (node : IONode) (cache : Option String)
    (buf : String) (v H : Int) (k : Nat) (s' : WState)
    (hv : atoi (trimSpace buf) = some v)
    (hH : hostVal node = some H)
    (hinv : ∀ c, cache = some c → ∃ ci, atoi c = some ci ∧ ci ≤ H)
    (hw : nfWrite ⟨node, some cache⟩ buf = (.ok k, s')) :
    hostVal s'.node = some (max v H) ∧
    (∃ c, s'.cntr = some (some c) ∧ atoi c = some v) ∧
    (v ≤ H → s'.node = node) := by
  obtain ⟨hr1, hr2⟩ := atoi_range _ _ hv
  rw [nfWrite] at hw
  simp only [hv] at hw
  rcases cache with _ | curMax
  · rcases hp : pushFile node v with e | n2 <;> simp only [hp] at hw
    · exact absurd hw (by simp)
    · rw [Prod.mk.injEq] at hw
      obtain ⟨h1, h2⟩ := hw
      subst h2
      obtain ⟨hh1, hh2⟩ := pushFile_ok node n2 v H hH hr1 hr2 hp
      exact ⟨hh1, ⟨trimSpace buf, rfl, hv⟩, fun hle => hh2 hle⟩
  · obtain ⟨ci, hci, hcile⟩ := hinv curMax rfl
    simp only [hci] at hw
    by_cases hle : v ≤ ci
    · rw [if_pos hle, Prod.mk.injEq] at hw
      obtain ⟨h1, h2⟩ := hw
      subst h2
      refine ⟨?_, ⟨trimSpace buf, rfl, hv⟩, fun _ => rfl⟩
      show hostVal node = some (max v H)
      rw [hH, max_eq_right (le_trans hle hcile)]
    · rw [if_neg hle] at hw
      rcases hp : pushFile node v with e | n2 <;> simp only [hp] at hw
      · exact absurd hw (by simp)
      · rw [Prod.mk.injEq] at hw
        obtain ⟨h1, h2⟩ := hw
        subst h2
        obtain ⟨hh1, hh2⟩ := pushFile_ok node n2 v H hH hr1 hr2 hp
        exact ⟨hh1, ⟨trimSpace buf, rfl, hv⟩, fun hvh => hh2 hvh⟩

/-- C1 witness: host value 100, empty cache, container writes "200":
the host becomes 200 = max(200, 100) and the cache holds "200". -/
theorem c1_witness :
    hostVal ((⟨⟨"200", "", false, false, false, 1⟩,
        some (some "200")⟩ : WState).node) = some (max 200 100) ∧
    (∃ c, (⟨⟨"200", "", false, false, false, 1⟩,
        some (some "200")⟩ : WState).cntr = some (some c) ∧
        atoi c = some 200) ∧
    ((200 : Int) ≤ 100 →
      (⟨⟨"200", "", false, false, false, 1⟩,
        some (some "200")⟩ : WState).node
        = ⟨"100", "", false, false, false, 0⟩) :=
  c1_nf_write_monotonic_max ⟨"100", "", false, false, false, 0⟩ none
    "200" 200 100 3
    ⟨⟨"200", "", false, false, false, 1⟩, some (some "200")⟩
    (by decide) (by decide) (fun c hc => Option.noConfusion hc) (by decide)

/-- C2: a successful write of value v followed by a read at offset 0 from
the same container returns the payload "trimmed v" followed by a newline;
after two successive successful writes on the same resource and container,
a read returns the second value with a trailing newline. -/
theorem c2_write_read_roundtrip :
    (∀ s s' : WState, ∀ buf : String, ∀ k : Nat,
      nfWrite s buf = (.ok k, s') →
      nfRead s' 0 = (.ok (trimSpace buf ++ "\n"), s')) ∧
    (∀ s s1 s2 : WState, ∀ b1 b2 : String, ∀ k1 k2 : Nat,
      nfWrite s b1 = (.ok k1, s1) → nfWrite s1 b2 = (.ok k2, s2) →
      nfRead s2 0 = (.ok (trimSpace b2 ++ "\n"), s2)) := by
  have hread : ∀ s' : WState, ∀ buf : String,
      s'.cntr = some (some (trimSpace buf)) →
      nfRead s' 0 = (.ok (trimSpace buf ++ "\n"), s') := by
    intro s' buf hc
    rw [nfRead, if_neg (by norm_num : ¬((0 : Int) > 0))]
    simp only [hc]
  exact ⟨fun s s' buf k h => hread s' buf (nfWrite_ok_state s s' buf k h).1,
    fun s s1 s2 b1 b2 k1 k2 h1 h2 =>
      hread s2 b2 (nfWrite_ok_state s1 s2 b2 k2 h2).1⟩

/-- C2 witness: after writing "200" the read returns "200\n". -/
theorem c2_witness :
    nfRead ⟨⟨"200", "", false, false, false, 1⟩, some (some "200")⟩ 0
      = (.ok "200\n",
         ⟨⟨"200", "", false, false, false, 1⟩, some (some "200")⟩) :=
  c2_write_read_roundtrip.1 ⟨⟨"100", "", false, false, false, 0⟩, some none⟩
    ⟨⟨"200", "", false, false, false, 1⟩, some (some "200")⟩ "200" 3 (by decide)

/-- C10: whenever `NfConntrackMaxHandler.Write` returns an error — payload
parse failure, unknown container, cached-value parse failure, or host push
failure — the container resource-map entry for the handler's (path, name)
is left unchanged: the cache is updated only on success paths. -/
theorem c10_write_error_cache_unchanged (s s' : WState) (buf : String)
    (e : Err) (h : nfWrite s buf = (.error e, s')) : s'.cntr = s.cntr := by
  rw [nfWrite_error_state s s' buf e h]

/-- C10 witness: a non-numeric payload errors and leaves the cache as it
was. -/
theorem c10_witness :
    ((⟨⟨"100", "", false, false, false, 0⟩, some none⟩ : WState)).cntr
      = ((⟨⟨"100", "", false, false, false, 0⟩, some none⟩ : WState)).cntr :=
  c10_write_error_cache_unchanged
    ⟨⟨"100", "", false, false, false, 0⟩, some none⟩
    ⟨⟨"100", "", false, false, false, 0⟩, some none⟩
    "abc" .parseFailure (by decide)

/-! ## Support lemmas: the errors Write can surface -/

theorem readLine_snd_cases (n : IONode) :
    (n.readLine).2 = none ∨ (n.readLine).2 = some .ioFail ∨
    (n.readLine).2 = some .eof := by
  rw [IONode.readLine]
  by_cases hr : n.readFails
  · simp [hr]
  · by_cases hc : n.content = "" <;> simp [hr, hc]

theorem pushFile_ne_ioerror (n : IONode) (v : Int) (c : Errno) :
    pushFile n v ≠ .error (.ioErrorCode c) := by
  intro h
  simp only [pushFile] at h
  split at h
  · injection h with h
    rcases readLine_snd_cases n with h2 | h2 | h2 <;> rw [h2] at h <;> simp at h
  · split at h
    · simp at h
    · split_ifs at h <;> simp at h

theorem nfWrite_fst_ne_ioerror (s : WState) (buf : String) (c : Errno) :
    (nfWrite s buf).1 ≠ .error (.ioErrorCode c) := by
  intro h
  rw [nfWrite] at h
  rcases ha : atoi (trimSpace buf) with _ | v <;> simp only [ha] at h
  · simp at h
  · rcases hc : s.cntr with _ | cache <;> simp only [hc] at h
    · simp at h
    · rcases cache with _ | curMax
      · rcases hp : pushFile s.node v with e | n2 <;> simp only [hp] at h
        · injection h with h
          rw [h] at hp
          exact pushFile_ne_ioerror s.node v c hp
        · simp at h
      · rcases hm : atoi curMax with _ | cur <;> simp only [hm] at h
        · simp at h
        · by_cases hle : v ≤ cur
          · rw [if_pos hle] at h
            simp at h
          · rw [if_neg hle] at h
            rcases hp : pushFile s.node v with e | n2 <;>
              simp only [hp] at h <;> simp at h

/-- C7 counterexample: with the resource cached at "100" and a host node
whose read fails, writing "200" makes the push fail and Write surfaces
io.EOF — not a fuse IOerror carrying EIO as the claim states. -/
theorem c7_counterexample :
    (nfWrite ⟨⟨"100", "", true, false, false, 0⟩,
        some (some "100")⟩ "200").1 = .error .eof ∧
    (nfWrite ⟨⟨"100", "", true, false, false, 0⟩,
        some (some "100")⟩ "200").1 ≠ .error (.ioErrorCode .eio) := by
  constructor <;> decide

/-- C7 amended: when the push of the new value to the host fails, the
handler surfaces the raw push error if the resource was not yet cached,
and the io.EOF sentinel if it was cached with a smaller value; Write never
surfaces a fuse IOerror (in particular not EIO) itself. -/
theorem c7_push_failure_error_amended :
    (∀ node : IONode, ∀ buf : String, ∀ v : Int, ∀ e : Err,
      atoi (trimSpace buf) = some v → pushFile node v = .error e →
      nfWrite ⟨node, some none⟩ buf = (.error e, ⟨node, some none⟩)) ∧
    (∀ node : IONode, ∀ buf c : String, ∀ v ci : Int, ∀ e : Err,
      atoi (trimSpace buf) = some v → atoi c = some ci → ci < v →
      pushFile node v = .error e →
      nfWrite ⟨node, some (some c)⟩ buf
        = (.error .eof, ⟨node, some (some c)⟩)) ∧
    (∀ s : WState, ∀ buf : String, ∀ c : Errno,
      (nfWrite s buf).1 ≠ .error (.ioErrorCode c)) := by
  refine ⟨?_, ?_, fun s buf c => nfWrite_fst_ne_ioerror s buf c⟩
  · intro node buf v e hv hp
    rw [nfWrite]
    simp only [hv, hp]
  · intro node buf c v ci e hv hci hlt hp
    rw [nfWrite]
    simp only [hv, hci]
    rw [if_neg (not_le.2 hlt)]
    simp only [hp]

/-- C7 witness: the cached push-failure path surfaces io.EOF at a concrete
input. -/
theorem c7_witness :
    nfWrite ⟨⟨"100", "", true, false, false, 0⟩, some (some "100")⟩ "200"
      = (.error .eof,
         ⟨⟨"100", "", true, false, false, 0⟩, some (some "100")⟩) :=
  c7_push_failure_error_amended.2.1 ⟨"100", "", true, false, false, 0⟩
    "200" "100" 200 100 .ioFail (by decide) (by decide) (by decide) (by decide)

/-- C8: a read at offset strictly greater than 0 on an emulated
single-integer node — both the nf_conntrack_max handler and the neigh
handler — returns 0 bytes and io.EOF, regardless of container, cache
state, or host value. -/
theorem c8_read_offset_positive_eof (s : WState) (n : IONode)
    (cache : Option String) (p i : Bool) (off : Int) (h : 0 < off) :
    nfRead s off = (.error .eof, s) ∧
    neighRead n cache ⟨off, p, i⟩ = (.error .eof, cache) := by
  constructor
  · rw [nfRead, if_pos h]
  · simp only [neighRead]
    rw [if_pos h]

/-- C8 witness: offset 1 yields EOF on both handlers. -/
theorem c8_witness :
    nfRead ⟨⟨"100", "", false, false, false, 0⟩, some (some "100")⟩ 1
      = (.error .eof,
         ⟨⟨"100", "", false, false, false, 0⟩, some (some "100")⟩) ∧
    neighRead ⟨"30", "", false, false, false, 0⟩ none ⟨1, true, false⟩
      = (.error .eof, none) :=
  c8_read_offset_positive_eof
    ⟨⟨"100", "", false, false, false, 0⟩, some (some "100")⟩
    ⟨"30", "", false, false, false, 0⟩ none true false 1 (by norm_num)

/-- C6: Open on nf_conntrack_max rejects any flags other than read-only or
write-only with EACCES; write-only is silently promoted to read-write
before the host open; a failing host open yields EIO; otherwise open
succeeds. -/
theorem c6_nf_open_flag_policy (n : OpenNode) :
    (n.openFlags ≠ O_RDONLY ∧ n.openFlags ≠ O_WRONLY →
      nfOpen n = (some (.ioErrorCode .eacces), n)) ∧
    (n.openFlags = O_WRONLY → (nfOpen n).2.openFlags = O_RDWR) ∧
    ((n.openFlags = O_RDONLY ∨ n.openFlags = O_WRONLY) →
      n.openFails = true → (nfOpen n).1 = some (.ioErrorCode .eio)) ∧
    ((n.openFlags = O_RDONLY ∨ n.openFlags = O_WRONLY) →
      n.openFails = false → (nfOpen n).1 = none) := by
  refine ⟨fun hne => ?_, fun hw => ?_, fun hall hf => ?_, fun hall hf => ?_⟩
  · rw [nfOpen, if_pos hne]
  · have hne : ¬(n.openFlags ≠ O_RDONLY ∧ n.openFlags ≠ O_WRONLY) :=
      fun hc => hc.2 hw
    simp only [nfOpen, if_neg hne, if_pos hw]
    by_cases hf : n.openFails <;> simp [hf]
  · have hne : ¬(n.openFlags ≠ O_RDONLY ∧ n.openFlags ≠ O_WRONLY) := by
      rcases hall with h | h <;> exact fun hc => (by
        first
        | exact hc.1 h
        | exact hc.2 h)
    simp only [nfOpen, if_neg hne]
    by_cases hw2 : n.openFlags = O_WRONLY <;> simp [hw2, hf]
  · have hne : ¬(n.openFlags ≠ O_RDONLY ∧ n.openFlags ≠ O_WRONLY) := by
      rcases hall with h | h <;> exact fun hc => (by
        first
        | exact hc.1 h
        | exact hc.2 h)
    simp only [nfOpen, if_neg hne]
    by_cases hw2 : n.openFlags = O_WRONLY <;> simp [hw2, hf]

/-- C6 witness: read-write flags are rejected with EACCES, write-only is
promoted to read-write, a failing host open yields EIO, and a read-only
open on a healthy host succeeds. -/
theorem c6_witness :
    nfOpen ⟨O_RDWR, false⟩ = (some (.ioErrorCode .eacces), ⟨O_RDWR, false⟩) ∧
    (nfOpen ⟨O_WRONLY, false⟩).2.openFlags = O_RDWR ∧
    (nfOpen ⟨O_RDONLY, true⟩).1 = some (.ioErrorCode .eio) ∧
    (nfOpen ⟨O_RDONLY, false⟩).1 = none :=
  ⟨(c6_nf_open_flag_policy ⟨O_RDWR, false⟩).1 (by decide),
   (c6_nf_open_flag_policy ⟨O_WRONLY, false⟩).2.1 rfl,
   (c6_nf_open_flag_policy ⟨O_RDONLY, true⟩).2.2.1 (Or.inl rfl) rfl,
   (c6_nf_open_flag_policy ⟨O_RDONLY, false⟩).2.2.2 (Or.inl rfl) rfl⟩

/-- C5 counterexample: the meminfo write handler returns byte count 0, not
len(buf) = 3, for the payload "abc". -/
theorem c5_counterexample :
    (procMeminfoWrite ⟨"host", "", false, false, false, 0⟩ "abc").1.1
      ≠ goLen "abc" := by decide

/-- C5 amended: host-passthrough writes are no-ops on all state and return
byte count 0 with a nil error (not len(buf)); meminfo reads stream the
content directly from the host file. -/
theorem c5_passthrough_amended :
    (∀ n : IONode, ∀ buf : String, procMeminfoWrite n buf = ((0, none), n)) ∧
    (∀ n : IONode, ∀ buf : String, procCpuinfoWrite n buf = ((0, none), n)) ∧
    (∀ n : IONode, ∀ cap : Nat, n.readFails = false →
      procMeminfoRead n cap = .ok (strTake n.content cap)) := by
  refine ⟨fun n buf => rfl, fun n buf => rfl, fun n cap hr => ?_⟩
  simp [procMeminfoRead, readNodeSpec, hr]

/-- C5 witness: a read of a healthy meminfo node returns the host content. -/
theorem c5_witness :
    procMeminfoRead ⟨"MemTotal: 1", "", false, false, false, 0⟩ 5
      = .ok (strTake "MemTotal: 1" 5) :=
  c5_passthrough_amended.2.2 ⟨"MemTotal: 1", "", false, false, false, 0⟩ 5 rfl

/-- C9: in the neigh handler's ReadDirAll loop the second branch, guarded
by relpath ≠ "." ∧ relpath = Dir(k), never fires — its guard implies the
guard of the branch tested just before it — and an emulated entry is
emitted for key k exactly when relpath is k's parent directory. -/
theorem c9_neigh_readdir_dead_branch (relpath k : String) :
    neighDirBranch relpath k ≠ some .emitFile ∧
    (k ∈ neighEmuEntries relpath ↔
      k ∈ neighEmuKeys ∧ relpath = goFilepathDir k) := by
  constructor
  · rw [neighDirBranch]
    by_cases h : relpath = goFilepathDir k
    · rw [if_pos h]; simp
    · rw [if_neg h, if_neg (fun hc => h hc.2)]; simp
  · rw [neighEmuEntries, List.mem_filter]
    constructor
    · rintro ⟨hk, hb⟩
      refine ⟨hk, ?_⟩
      by_contra hne
      rw [neighDirBranch, if_neg hne, if_neg (fun hc => hne hc.2)] at hb
      simp at hb
    · rintro ⟨hk, hb⟩
      refine ⟨hk, ?_⟩
      rw [neighDirBranch, if_pos hb]
      simp

/-- C9 witness: at relpath "default" the key "default/gc_thresh1" is
emitted by the first branch only. -/
theorem c9_witness :
    neighDirBranch "default" "default/gc_thresh1" ≠ some .emitFile ∧
    ("default/gc_thresh1" ∈ neighEmuEntries "default" ↔
      "default/gc_thresh1" ∈ neighEmuKeys ∧
      "default" = goFilepathDir "default/gc_thresh1") :=
  c9_neigh_readdir_dead_branch "default" "default/gc_thresh1"

/-! ## Support lemmas: server-service lifecycle -/

theorem lookupSrv_filter_ne (l : List (String × FuseSrv)) (k cid : String)
    (h : cid ≠ k) :
    lookupSrv (l.filter (fun p => p.1 != k)) cid = lookupSrv l cid := by
  induction l with
  | nil => rfl
  | cons a t ih =>
    rw [List.filter_cons]
    by_cases hak : a.1 = k
    · have hcond : (a.1 != k) = false := by simp [hak]
      rw [hcond]
      simp only [Bool.false_eq_true, if_false]
      rw [ih, lookupSrv]
      have hne : ¬(a.1 = cid) := by rw [hak]; exact Ne.symm h
      rw [if_neg hne]
    · have hcond : (a.1 != k) = true := by simp [hak]
      rw [hcond]
      simp only [if_true]
      rw [lookupSrv, lookupSrv]
      by_cases hc : a.1 = cid
      · rw [if_pos hc, if_pos hc]
      · rw [if_neg hc, if_neg hc, ih]

theorem destroy_preserves_failing (st : FssState) (k cid : String)
    (srv : FuseSrv) (h1 : lookupSrv st.servers cid = some srv)
    (h2 : srv.destroyOk = false) :
    lookupSrv (destroyFuseServer st k).2.servers cid = some srv := by
  rw [destroyFuseServer]
  rcases hk : lookupSrv st.servers k with _ | srv2 <;> simp only [hk]
  · exact h1
  · by_cases hd : srv2.destroyOk = false
    · rw [if_pos hd]; exact h1
    · rw [if_neg hd]
      by_cases hrem : k ∈ st.dirs ∧ srv2.removeOk = true
      · rw [if_pos hrem]
        show lookupSrv (st.servers.filter (fun p => p.1 != k)) cid = some srv
        by_cases hck : cid = k
        · subst hck
          rw [h1] at hk
          injection hk with hk
          rw [← hk] at hd
          exact absurd h2 hd
        · rw [lookupSrv_filter_ne _ _ _ hck]
          exact h1
      · rw [if_neg hrem]; exact h1

theorem destroyAll_preserves_failing (keys : List String) (st : FssState)
    (cid : String) (srv : FuseSrv)
    (h1 : lookupSrv st.servers cid = some srv) (h2 : srv.destroyOk = false) :
    lookupSrv
      ((keys.foldl (fun s k => (destroyFuseServer s k).2) st)).servers cid
      = some srv := by
  induction keys generalizing st with
  | nil => exact h1
  | cons k ks ih =>
    rw [List.foldl_cons]
    exact ih _ (destroy_preserves_failing st k cid srv h1 h2)

/-- C3 counterexample: with a registered server whose internal Destroy step
fails, DestroyFuseServer returns success but the server's entry is NOT
removed from the map, contrary to the claim that it is de-registered. -/
theorem c3_counterexample :
    destroyFuseServer ⟨[("c1", ⟨false, true⟩)], ["c1"]⟩ "c1"
      = (none, ⟨[("c1", ⟨false, true⟩)], ["c1"]⟩) ∧
    lookupSrv
      (destroyFuseServer ⟨[("c1", ⟨false, true⟩)], ["c1"]⟩ "c1").2.servers
      "c1" = some ⟨false, true⟩ := by
  constructor <;> decide

/-- C3 amended: when a live server's Destroy step fails, the failure is
only logged and destroy returns success (nil), but the server's map entry
is retained, not removed; destroy_all still terminates, with every such
server remaining registered. -/
theorem c3_destroy_failure_amended (st : FssState) (cid : String)
    (srv : FuseSrv) (h1 : lookupSrv st.servers cid = some srv)
    (h2 : srv.destroyOk = false) :
    destroyFuseServer st cid = (none, st) ∧
    lookupSrv (destroyFuseService st).servers cid = some srv := by
  constructor
  · rw [destroyFuseServer]
    simp only [h1]
    rw [if_pos h2]
  · exact destroyAll_preserves_failing _ st cid srv h1 h2

/-- C3 witness: a concrete failing destroy keeps the entry through
destroy_all. -/
theorem c3_witness :
    destroyFuseServer ⟨[("c2", ⟨false, true⟩)], ["c2"]⟩ "c2"
      = (none, ⟨[("c2", ⟨false, true⟩)], ["c2"]⟩) ∧
    lookupSrv
      (destroyFuseService ⟨[("c2", ⟨false, true⟩)], ["c2"]⟩).servers "c2"
      = some ⟨false, true⟩ :=
  c3_destroy_failure_amended ⟨[("c2", ⟨false, true⟩)], ["c2"]⟩ "c2"
    ⟨false, true⟩ rfl rfl

/-- C4 counterexample: when server Init fails after the mountpoint
directory was created, create returns an error without inserting the map
entry, but the mountpoint directory REMAINS on disk — it is not released
in reverse order as claimed. -/
theorem c4_counterexample :
    createFuseServer ⟨[], []⟩ ⟨true, false⟩ "c1" ⟨true, true⟩
      = (some .initFailure, ⟨[], ["c1"]⟩) ∧
    "c1" ∈
      (createFuseServer ⟨[], []⟩ ⟨true, false⟩ "c1" ⟨true, true⟩).2.dirs := by
  constructor <;> decide

/-- C4 amended: on every error path of create the server-map entry is not
inserted, and nothing is acquired when the failure is at or before
mountpoint creation (duplicate id, mkdir failure); but an Init failure
after a successful mkdir leaves the mountpoint directory on disk. -/
theorem c4_create_error_amended (st : FssState) (env : CreateEnv)
    (cid : String) (srv : FuseSrv) (e : Err) (st2 : FssState)
    (h : createFuseServer st env cid srv = (some e, st2)) :
    st2.servers = st.servers ∧
    (e ≠ .initFailure → st2 = st) ∧
    (e = .initFailure →
      st2.dirs = (if cid ∈ st.dirs then st.dirs else cid :: st.dirs)) := by
  simp only [createFuseServer] at h
  by_cases h1 : (lookupSrv st.servers cid).isSome
  · rw [if_pos h1, Prod.mk.injEq] at h
    obtain ⟨he, hs⟩ := h
    injection he with he
    subst hs
    exact ⟨rfl, fun _ => rfl,
      fun hcon => absurd (he.trans hcon) (by decide)⟩
  · rw [if_neg h1] at h
    by_cases h2 : env.mkdirOk = false
    · rw [if_pos h2, Prod.mk.injEq] at h
      obtain ⟨he, hs⟩ := h
      injection he with he
      subst hs
      exact ⟨rfl, fun _ => rfl,
        fun hcon => absurd (he.trans hcon) (by decide)⟩
    · rw [if_neg h2] at h
      by_cases h3 : env.initOk = false
      · rw [if_pos h3, Prod.mk.injEq] at h
        obtain ⟨he, hs⟩ := h
        injection he with he
        rw [← hs]
        refine ⟨rfl, fun hcon => absurd (he.symm ▸ rfl) hcon, fun _ => rfl⟩
      · rw [if_neg h3] at h
        exact absurd h (by simp)

/-- C4 witness: the Init-failure path at a concrete input. -/
theorem c4_witness :
    (⟨[], ["c9"]⟩ : FssState).servers = (⟨[], []⟩ : FssState).servers ∧
    (Err.initFailure ≠ Err.initFailure →
      (⟨[], ["c9"]⟩ : FssState) = (⟨[], []⟩ : FssState)) ∧
    (Err.initFailure = Err.initFailure →
      (⟨[], ["c9"]⟩ : FssState).dirs
        = (if "c9" ∈ (⟨[], []⟩ : FssState).dirs
           then (⟨[], []⟩ : FssState).dirs
           else "c9" :: (⟨[], []⟩ : FssState).dirs)) :=
  c4_create_error_amended ⟨[], []⟩ ⟨true, false⟩ "c9" ⟨true, true⟩
    .initFailure ⟨[], ["c9"]⟩ (by decide)

end SysboxFS
